import Mathlib

set_option maxHeartbeats 1000000

namespace Gitingest

/-!
Shallow embedding of the gitingest-ts repository (a filesystem-to-text-digest
converter).  Pure functions of the source are translated directly; the
filesystem, which the tree walker consumes through `fs/promises`, is modelled
as a record of partial functions (`FSModel`); JavaScript exceptions become an
explicit `Except`-style error component threaded together with the mutable
state (`FileStats`, the visited set) that persists across a throw.
-/

/-- Empty string constant. -/
def emptyStr : String := ""

/-- Model of `String.prototype.startsWith`: the second string is a literal
prefix of the first. -/
def strStartsWith (s pre : String) : Bool := pre.data.isPrefixOf s.data

/-- Model of `String.prototype.endsWith`: the second string is a literal
suffix of the first. -/
def strEndsWith (s suffix : String) : Bool := suffix.data.isSuffixOf s.data

/-- Whether a character is matched by the JavaScript regular-expression `.`
(dot) without the `s` flag: every character except the four ECMAScript line
terminators U+000A, U+000D, U+2028, U+2029. -/
def jsDotMatches (c : Char) : Bool :=
  !(c == '\n' || c == '\r' || c == Char.ofNat 8232 || c == Char.ofNat 8233)

/-- Helper for the `*` case of the matcher: `starLoop matchTail n` holds when
some (possibly empty) run of characters, each matched by the JS dot, can be
consumed from the front of `n` so that `matchTail` accepts the remainder. -/
def starLoop (matchTail : List Char → Bool) : List Char → Bool
  | [] => matchTail []
  | d :: ns' => matchTail (d :: ns') || (jsDotMatches d && starLoop matchTail ns')

/-- Core matcher embedding `fnmatch` of `src/src/gitingest/utils.ts`.  The
source escapes every regex metacharacter of the pattern except `*` and `?`,
rewrites `*` to `.*` and `?` to `.`, anchors with `^...$`, and tests the
candidate.  Hence: `*` matches a run of characters each matched by JS `.`,
`?` matches one such character, and every other pattern character matches
itself literally.  First argument is the pattern, second the candidate. -/
def globMatch : List Char → List Char → Bool
  | [] => fun n => n.isEmpty
  | c :: ps =>
    if c = '*' then fun n => starLoop (globMatch ps) n
    else fun n =>
      match n with
      | [] => false
      | d :: ns' =>
        if c = '?' then jsDotMatches d && globMatch ps ns'
        else (c == d) && globMatch ps ns'

/-- Embedding of `fnmatch(name, pattern)` of `src/src/gitingest/utils.ts`. -/
def fnmatch (name pattern : String) : Bool :=
  globMatch pattern.data name.data

/-- Specification-side matching relation written from the spec's words for the
pattern matcher: `*` matches any run of characters (with no restriction at
all), `?` matches exactly one character, every other pattern character matches
itself literally, and matching is anchored at both ends. -/
inductive GlobSpec : List Char → List Char → Prop where
  | nil : GlobSpec [] []
  | lit (c : Char) (ps ns : List Char) :
      c ≠ '*' → c ≠ '?' → GlobSpec ps ns → GlobSpec (c :: ps) (c :: ns)
  | one (c : Char) (ps ns : List Char) :
      GlobSpec ps ns → GlobSpec ('?' :: ps) (c :: ns)
  | star (ps run ns : List Char) :
      GlobSpec ps ns → GlobSpec ('*' :: ps) (run ++ ns)

/-- Matching relation with the JavaScript-dot restriction: as `GlobSpec`, but
`?` matches exactly one non-line-terminator character and `*` matches any run
of non-line-terminator characters. -/
inductive GlobSpecJS : List Char → List Char → Prop where
  | nil : GlobSpecJS [] []
  | lit (c : Char) (ps ns : List Char) :
      c ≠ '*' → c ≠ '?' → GlobSpecJS ps ns → GlobSpecJS (c :: ps) (c :: ns)
  | one (c : Char) (ps ns : List Char) :
      jsDotMatches c = true → GlobSpecJS ps ns → GlobSpecJS ('?' :: ps) (c :: ns)
  | star (ps run ns : List Char) :
      (∀ c ∈ run, jsDotMatches c = true) → GlobSpecJS ps ns →
      GlobSpecJS ('*' :: ps) (run ++ ns)

lemma globSpecJS_star_cons (ps ns : List Char) (c : Char)
    (hc : jsDotMatches c = true) (h : GlobSpecJS ('*' :: ps) ns) :
    GlobSpecJS ('*' :: ps) (c :: ns) := by
  cases h with
  | lit _ _ _ hs _ _ => exact absurd rfl hs
  | star _ run ns' hall hrest =>
    have h2 : c :: (run ++ ns') = (c :: run) ++ ns' := rfl
    rw [h2]
    refine GlobSpecJS.star ps (c :: run) ns' ?_ hrest
    intro d hd
    rcases List.mem_cons.mp hd with rfl | hd'
    · exact hc
    · exact hall d hd'

lemma globMatch_sound (p : List Char) :
    ∀ n, globMatch p n = true → GlobSpecJS p n := by
  induction p with
  | nil =>
    intro n h
    cases n with
    | nil => exact GlobSpecJS.nil
    | cons d ns' => simp [globMatch] at h
  | cons c ps ih =>
    by_cases hc : c = '*'
    · subst hc
      intro n
      induction n with
      | nil =>
        intro h
        rw [globMatch, if_pos rfl] at h
        simp only [starLoop] at h
        have := GlobSpecJS.star ps [] [] (by intro d hd; cases hd) (ih [] h)
        simpa using this
      | cons d ns' ihn =>
        intro h
        rw [globMatch, if_pos rfl] at h
        simp only [starLoop] at h
        rcases (Bool.or_eq_true _ _).mp h with h1 | h2
        · have := GlobSpecJS.star ps [] (d :: ns') (by intro x hx; cases hx) (ih _ h1)
          simpa using this
        · rcases (Bool.and_eq_true _ _).mp h2 with ⟨hd, hrec⟩
          have hrec' : globMatch ('*' :: ps) ns' = true := by
            rw [globMatch, if_pos rfl]; exact hrec
          exact globSpecJS_star_cons ps ns' d hd (ihn hrec')
    · intro n h
      rw [globMatch, if_neg hc] at h
      cases n with
      | nil => simp at h
      | cons d ns' =>
        by_cases hq : c = '?'
        · subst hq
          simp only [if_pos rfl] at h
          rcases (Bool.and_eq_true _ _).mp h with ⟨hd, hrec⟩
          exact GlobSpecJS.one d ps ns' hd (ih _ hrec)
        · simp only [if_neg hq] at h
          rcases (Bool.and_eq_true _ _).mp h with ⟨hd, hrec⟩
          have hcd : c = d := by simpa using hd
          subst hcd
          exact GlobSpecJS.lit c ps ns' hc hq (ih _ hrec)

lemma starLoop_base (matchTail : List Char → Bool) (ns : List Char)
    (h : matchTail ns = true) : starLoop matchTail ns = true := by
  cases ns with
  | nil => simpa [starLoop] using h
  | cons d ns' => simp [starLoop, h]

lemma starLoop_cons (matchTail : List Char → Bool) (ns : List Char) (c : Char)
    (hc : jsDotMatches c = true) (h : starLoop matchTail ns = true) :
    starLoop matchTail (c :: ns) = true := by
  simp [starLoop, hc, h]

lemma globMatch_complete (p n : List Char) (h : GlobSpecJS p n) :
    globMatch p n = true := by
  induction h with
  | nil => rfl
  | lit c ps ns hs hq _ ih =>
    rw [globMatch, if_neg hs]
    simp [if_neg hq, ih]
  | one c ps ns hc _ ih =>
    rw [globMatch, if_neg (by decide : ¬('?' : Char) = '*')]
    simp [hc, ih]
  | star ps run ns hall _ ih =>
    rw [globMatch, if_pos rfl]
    induction run with
    | nil => simpa using starLoop_base (globMatch ps) ns ih
    | cons c run' ihrun =>
      have hc : jsDotMatches c = true := hall c (by simp)
      have hrest := ihrun (by intro d hd; exact hall d (by simp [hd]))
      simpa using starLoop_cons (globMatch ps) (run' ++ ns) c hc hrest

/-- C4 (counterexample): the claim says `*` matches any run of characters, but
the JavaScript regex dot produced by the source's `*` → `.*` rewrite does not
match a line terminator, so the candidate `"a\nb"` should match the pattern
`"a*b"` under the claimed semantics yet `fnmatch` rejects it. -/
theorem fnmatch_newline_counterexample :
    fnmatch (String.mk ['a', '\n', 'b']) (String.mk ['a', '*', 'b']) = false
    ∧ GlobSpec ['a', '*', 'b'] ['a', '\n', 'b'] := by
  constructor
  · rfl
  · refine GlobSpec.lit 'a' _ _ (by decide) (by decide) ?_
    have h : GlobSpec ['b'] ['b'] :=
      GlobSpec.lit 'b' [] [] (by decide) (by decide) GlobSpec.nil
    simpa using GlobSpec.star ['b'] ['\n'] ['b'] h

/-- C4 (amended): `fnmatch name pattern` returns true exactly when the whole
candidate matches the pattern anchored at both ends, with `*` standing for any
run of non-line-terminator characters, `?` standing for exactly one
non-line-terminator character (JS `.` semantics: U+000A, U+000D, U+2028,
U+2029 excluded), and every other pattern character matching itself literally
(hence case-sensitively); as a pure function it is deterministic. -/
theorem fnmatch_iff_globSpecJS (name pattern : String) :
    fnmatch name pattern = true ↔ GlobSpecJS pattern.data name.data := by
  constructor
  · exact globMatch_sound pattern.data name.data
  · exact globMatch_complete pattern.data name.data

/-!
Query builder: embedding of `src/src/gitingest/query_parser.ts` together with
the fixed limits of `src/src/gitingest/confg.ts`.  The two `Set<string>`
pattern sets are modelled as duplicate-free lists in insertion order.  The
default ignore list (`DEFAULT_IGNORE_PATTERNS`, whose defining file is not
part of the sources) is passed as an explicit parameter, so every theorem
below holds for any choice of defaults.
-/

/-- Constant `MAX_FILE_SIZE` of `confg.ts`: 10 MiB. -/
def MAX_FILE_SIZE : Nat := 10 * 1024 * 1024

/-- Constant `MAX_DIRECTORY_DEPTH` of `confg.ts`. -/
def MAX_DIRECTORY_DEPTH : Nat := 20

/-- Constant `MAX_FILES` of `confg.ts`. -/
def MAX_FILES : Nat := 10000

/-- Constant `MAX_TOTAL_SIZE_BYTES` of `confg.ts`: 500 MiB. -/
def MAX_TOTAL_SIZE_BYTES : Nat := 500 * 1024 * 1024

/-- Configuration produced by the query builder (`ParsedQuery` of
`types.ts`, as consumed by `query_parser.ts` and `query_ingestion.ts`). -/
structure ParsedQuery where
  repository : String
  ignorePatterns : List String
  includePatterns : List String
  maxFiles : Nat
  maxTotalSizeBytes : Nat
  maxDirectoryDepth : Nat
deriving DecidableEq

/-- Errors the query builder can raise (`exceptions.ts`): the generic
`Error('Repository path cannot be empty')` and `InvalidPatternError`. -/
inductive QueryError where
  | emptyRepositoryPath
  | invalidPattern (pattern : String)
deriving DecidableEq

/-- Character class of the validation regex `^[a-zA-Z0-9\-_./+*]+$` in
`validatePattern` (`query_parser.ts`). -/
def validPatternChar (c : Char) : Bool :=
  decide (('a' ≤ c ∧ c ≤ 'z') ∨ ('A' ≤ c ∧ c ≤ 'Z') ∨ ('0' ≤ c ∧ c ≤ '9')
    ∨ c = '-' ∨ c = '_' ∨ c = '.' ∨ c = '/' ∨ c = '+' ∨ c = '*')

/-- Embedding of `validatePattern` (`query_parser.ts`): the regex
`^[a-zA-Z0-9\-_./+*]+$` accepts exactly the nonempty strings of allowed
characters; the source throws `InvalidPatternError` when the test fails, which
the caller below maps to `QueryError.invalidPattern`. -/
def validatePattern (p : String) : Bool :=
  !(p.data.isEmpty) && p.data.all validPatternChar

/-- JavaScript `Set.add` on the list model: append if not yet present. -/
def setAdd (s : List String) (p : String) : List String :=
  if p ∈ s then s else s ++ [p]

/-- Embedding of one validation/insertion loop of `parseQuery`
(`query_parser.ts`): each pattern is validated and then added; the first
invalid pattern aborts the whole call. -/
def addPatterns (s : List String) : List String → Except QueryError (List String)
  | [] => .ok s
  | p :: rest =>
    if validatePattern p then addPatterns (setAdd s p) rest
    else .error (.invalidPattern p)

/-- Model of `new Set<string>(DEFAULT_IGNORE_PATTERNS)`: deduplicate in
insertion order. -/
def dedupList (l : List String) : List String := l.foldl setAdd []

/-- Embedding of `parseQuery` (`query_parser.ts`).  `defaults` stands for
`DEFAULT_IGNORE_PATTERNS`, whose defining file is not among the sources; no
theorem depends on its contents. -/
def parseQuery (defaults : List String) (repository : String)
    (ignorePatterns includePatterns : Option (List String)) :
    Except QueryError ParsedQuery :=
  if repository = emptyStr then .error .emptyRepositoryPath
  else
    match addPatterns (dedupList defaults) (ignorePatterns.getD []) with
    | .error e => .error e
    | .ok ig =>
      match addPatterns [] (includePatterns.getD []) with
      | .error e => .error e
      | .ok inc =>
        .ok ⟨repository, ig, inc, MAX_FILES, MAX_TOTAL_SIZE_BYTES,
             MAX_DIRECTORY_DEPTH⟩

lemma addPatterns_error_of_invalid (l : List String) (s : List String)
    (h : ∃ p ∈ l, validatePattern p = false) :
    ∃ q, addPatterns s l = .error (.invalidPattern q) := by
  induction l generalizing s with
  | nil => rcases h with ⟨p, hp, _⟩; cases hp
  | cons a rest ih =>
    by_cases ha : validatePattern a = true
    · rcases h with ⟨p, hp, hbad⟩
      rcases List.mem_cons.mp hp with rfl | hrest
      · rw [ha] at hbad; cases hbad
      · have := ih (setAdd s a) ⟨p, hrest, hbad⟩
        simpa [addPatterns, ha] using this
    · refine ⟨a, ?_⟩
      simp [addPatterns, Bool.eq_false_iff.mpr ha]

lemma addPatterns_ok_or_invalid (l : List String) (s : List String) :
    (∃ r, addPatterns s l = .ok r)
    ∨ (∃ q, addPatterns s l = .error (.invalidPattern q)) := by
  induction l generalizing s with
  | nil => exact .inl ⟨s, rfl⟩
  | cons a rest ih =>
    by_cases ha : validatePattern a = true
    · rcases ih (setAdd s a) with ⟨r, hr⟩ | ⟨q, hq⟩
      · exact .inl ⟨r, by simpa [addPatterns, ha] using hr⟩
      · exact .inr ⟨q, by simpa [addPatterns, ha] using hq⟩
    · exact .inr ⟨a, by simp [addPatterns, Bool.eq_false_iff.mpr ha]⟩

/-- C6: whenever any supplied exclude or include pattern contains a character
outside `[A-Za-z0-9-_./+*]` (and the repository path is nonempty, so the
repository check does not fire first), `parseQuery` fails with
`InvalidPattern`; since the call throws instead of returning, no configuration
— partial or otherwise — is produced. -/
theorem parseQuery_invalid_pattern_aborts (defaults : List String)
    (repository : String) (ig inc : Option (List String)) (p : String)
    (c : Char) (hrepo : repository ≠ emptyStr)
    (hmem : p ∈ ig.getD [] ++ inc.getD [])
    (hc : c ∈ p.data) (hbad : validPatternChar c = false) :
    ∃ q, parseQuery defaults repository ig inc = .error (.invalidPattern q) := by
  have hvp : validatePattern p = false := by
    apply Bool.eq_false_iff.mpr
    intro hv
    rcases (Bool.and_eq_true _ _).mp hv with ⟨-, hall⟩
    have := (List.all_eq_true.mp hall) c hc
    rw [hbad] at this; cases this
  rcases List.mem_append.mp hmem with hig | hinc
  · rcases addPatterns_error_of_invalid (ig.getD []) (dedupList defaults)
      ⟨p, hig, hvp⟩ with ⟨q, hq⟩
    exact ⟨q, by simp [parseQuery, hrepo, hq]⟩
  · rcases addPatterns_ok_or_invalid (ig.getD []) (dedupList defaults) with
      ⟨r, hr⟩ | ⟨q, hq⟩
    · rcases addPatterns_error_of_invalid (inc.getD []) []
        ⟨p, hinc, hvp⟩ with ⟨q, hq⟩
      exact ⟨q, by simp [parseQuery, hrepo, hr, hq]⟩
    · exact ⟨q, by simp [parseQuery, hrepo, hq]⟩

/-- C6 (witness): a pattern containing a space aborts a concrete call. -/
theorem parseQuery_invalid_pattern_aborts_witness :
    ∃ q, parseQuery [] (String.mk ['r']) (some [String.mk ['a', ' ', 'b']])
      none = .error (.invalidPattern q) :=
  parseQuery_invalid_pattern_aborts [] (String.mk ['r'])
    (some [String.mk ['a', ' ', 'b']]) none (String.mk ['a', ' ', 'b']) ' '
    (by decide) (by decide) (by decide) (by decide)

lemma addPatterns_append_empty (l₁ l₂ : List String) (s : List String)
    (hl₁ : ∀ p ∈ l₁, validatePattern p = true) :
    addPatterns s (l₁ ++ emptyStr :: l₂) = .error (.invalidPattern emptyStr) := by
  induction l₁ generalizing s with
  | nil => simp [addPatterns, validatePattern, emptyStr]
  | cons a rest ih =>
    have ha : validatePattern a = true := hl₁ a (by simp)
    have := ih (setAdd s a) (by intro p hp; exact hl₁ p (by simp [hp]))
    simpa [addPatterns, ha] using this

/-- C10: supplying the empty string anywhere in the exclude list or the
include list (after only valid patterns) makes `parseQuery` fail with
`InvalidPattern ""`, even though the empty string contains no character
outside the allowed class: the validation regex `^[...]+$` accepts only
patterns of at least one allowed character. -/
theorem parseQuery_empty_pattern_rejected (defaults : List String)
    (repository : String) (l₁ l₂ : List String)
    (hrepo : repository ≠ emptyStr)
    (hl₁ : ∀ p ∈ l₁, validatePattern p = true) :
    parseQuery defaults repository (some (l₁ ++ emptyStr :: l₂)) none
      = .error (.invalidPattern emptyStr)
    ∧ parseQuery defaults repository none (some (l₁ ++ emptyStr :: l₂))
      = .error (.invalidPattern emptyStr)
    ∧ validatePattern emptyStr = false
    ∧ (∀ c ∈ emptyStr.data, validPatternChar c = true) := by
  refine ⟨?_, ?_, by decide, by decide⟩
  · have h := addPatterns_append_empty l₁ l₂ (dedupList defaults) hl₁
    simp [parseQuery, hrepo, h]
  · have h := addPatterns_append_empty l₁ l₂ [] hl₁
    rcases addPatterns_ok_or_invalid ((none : Option (List String)).getD [])
      (dedupList defaults) with ⟨r, hr⟩ | ⟨q, hq⟩
    · simp only [Option.getD] at hr ⊢
      simp [parseQuery, hrepo, hr, h]
    · simp [addPatterns] at hq

/-- C10 (witness): concrete call with one valid pattern before the empty
string. -/
theorem parseQuery_empty_pattern_rejected_witness :
    parseQuery [] (String.mk ['r'])
        (some ([String.mk ['a']] ++ emptyStr :: [])) none
      = .error (.invalidPattern emptyStr)
    ∧ parseQuery [] (String.mk ['r'])
        none (some ([String.mk ['a']] ++ emptyStr :: []))
      = .error (.invalidPattern emptyStr)
    ∧ validatePattern emptyStr = false
    ∧ (∀ c ∈ emptyStr.data, validPatternChar c = true) :=
  parseQuery_empty_pattern_rejected [] (String.mk ['r'])
    [String.mk ['a']] [] (by decide) (by decide)

/-!
Tree nodes and child ordering: embedding of `FileNode` (`types.ts`) and
`sortChildren` (`query_ingestion.ts`).  JavaScript's stable `Array.sort` with
the source's comparator is modelled as a stable insertion sort;
`String.localeCompare` is modelled as code-point lexicographic comparison (the
spec fixes no locale, only that the comparison is a lexicographic tie-break).
-/

/-- Node of the in-memory tree (`FileNode` of `types.ts`): `children` is
present only for directories, `content` only for text files; absent optional
fields are `none`, mirroring `undefined`. -/
inductive FileNode where
  | mk (name path : String) (size : Nat) (isDirectory : Bool)
      (children : Option (List FileNode)) (content : Option String)

/-- Display name of a node. -/
def FileNode.name : FileNode → String
  | .mk n _ _ _ _ _ => n

/-- Full path of a node. -/
def FileNode.path : FileNode → String
  | .mk _ p _ _ _ _ => p

/-- Byte size recorded on the node. -/
def FileNode.size : FileNode → Nat
  | .mk _ _ s _ _ _ => s

/-- Directory flag of a node. -/
def FileNode.isDirectory : FileNode → Bool
  | .mk _ _ _ d _ _ => d

/-- Children of a node (`undefined` for files). -/
def FileNode.children : FileNode → Option (List FileNode)
  | .mk _ _ _ _ c _ => c

/-- Extracted text content of a node (`undefined` when not attached). -/
def FileNode.content : FileNode → Option String
  | .mk _ _ _ _ _ c => c

/-- Lower-case readme file name compared against in `sortChildren`. -/
def readmeLower : String := "readme.md"

/-- Leading-dot marker used by the hidden-name check in `sortChildren`. -/
def dotStr : String := "."

/-- Whether the node's name is `readme.md` up to ASCII case
(`a.name.toLowerCase() === 'readme.md'` in the source; `String.toLower`
lower-cases ASCII letters, which covers every name whose lower-casing can be
`readme.md`). -/
def isReadmeName (n : FileNode) : Bool := n.name.toLower == readmeLower

/-- Whether the node's name starts with a dot (`a.name.startsWith('.')`). -/
def isDotName (n : FileNode) : Bool := strStartsWith n.name dotStr

/-- Three-way comparison of characters by code point. -/
def charCmp (a b : Char) : Ordering :=
  if a.toNat < b.toNat then .lt else if b.toNat < a.toNat then .gt else .eq

/-- Lexicographic three-way comparison of character lists. -/
def strCmp : List Char → List Char → Ordering
  | [], [] => .eq
  | [], _ :: _ => .lt
  | _ :: _, [] => .gt
  | a :: as, b :: bs =>
    match charCmp a b with
    | .eq => strCmp as bs
    | o => o

/-- Model of `String.prototype.localeCompare` as used in `sortChildren`:
a negative, zero or positive integer according to lexicographic order (the
concrete locale order is not observable in any property proved here). -/
def localeCompare (a b : String) : Int :=
  match strCmp a.data b.data with
  | .lt => -1
  | .eq => 0
  | .gt => 1

/-- Embedding of the comparator passed to `children.sort` in `sortChildren`
(`query_ingestion.ts`): readme first, then directories after files, then
dot-names after plain names, then `localeCompare` on names. -/
def cmpNodes (a b : FileNode) : Int :=
  if isReadmeName a then -1
  else if isReadmeName b then 1
  else if a.isDirectory != b.isDirectory then (if a.isDirectory then 1 else -1)
  else if isDotName a != isDotName b then (if isDotName a then 1 else -1)
  else localeCompare a.name b.name

/-- Stable insertion of one node into a list already sorted by `cmpNodes`:
the node goes after every element strictly smaller under the comparator. -/
def insertNode (a : FileNode) : List FileNode → List FileNode
  | [] => [a]
  | b :: rest => if cmpNodes b a < 0 then b :: insertNode a rest else a :: b :: rest

/-- Embedding of `sortChildren` (`query_ingestion.ts`): JavaScript's stable
`Array.sort` under the comparator, modelled as stable insertion sort. -/
def sortChildren : List FileNode → List FileNode
  | [] => []
  | a :: rest => insertNode a (sortChildren rest)

/-- Specification-side non-strict child order, written from the spec's words:
a `readme.md` (any case) first before all else; among the rest directories
after files; among same-kind entries dot-names after plain names; remaining
ties broken by the lexicographic name comparison. -/
def specChildLe (a b : FileNode) : Bool :=
  if isReadmeName a then true
  else if isReadmeName b then false
  else if a.isDirectory != b.isDirectory then !a.isDirectory
  else if isDotName a != isDotName b then !(isDotName a)
  else decide (localeCompare a.name b.name ≤ 0)

lemma charCmp_lt_iff (a b : Char) : charCmp a b = .lt ↔ a.toNat < b.toNat := by
  unfold charCmp
  split_ifs <;> simp <;> omega

lemma charCmp_eq_iff (a b : Char) : charCmp a b = .eq ↔ a.toNat = b.toNat := by
  unfold charCmp
  split_ifs <;> simp <;> omega

lemma charCmp_swap (a b : Char) : charCmp b a = (charCmp a b).swap := by
  unfold charCmp
  split_ifs
  all_goals try simp [Ordering.swap]
  all_goals omega

lemma strCmp_swap (x y : List Char) : strCmp y x = (strCmp x y).swap := by
  induction x generalizing y with
  | nil => cases y <;> simp [strCmp, Ordering.swap]
  | cons a as ih =>
    cases y with
    | nil => simp [strCmp, Ordering.swap]
    | cons b bs =>
      simp only [strCmp, charCmp_swap a b]
      cases h : charCmp a b <;> simp [Ordering.swap, ih bs]

lemma strCmp_nil_ne_gt (y : List Char) : strCmp [] y ≠ .gt := by
  cases y <;> simp [strCmp]

lemma strCmp_le_trans (x y z : List Char) (h1 : strCmp x y ≠ .gt)
    (h2 : strCmp y z ≠ .gt) : strCmp x z ≠ .gt := by
  induction x generalizing y z with
  | nil => exact strCmp_nil_ne_gt z
  | cons a as ih =>
    cases y with
    | nil => simp [strCmp] at h1
    | cons b bs =>
      cases z with
      | nil => simp [strCmp] at h2
      | cons c cs =>
        simp only [strCmp] at h1 h2 ⊢
        cases hab : charCmp a b with
        | gt => rw [hab] at h1; simp at h1
        | lt =>
          cases hbc : charCmp b c with
          | gt => rw [hbc] at h2; simp at h2
          | lt =>
            have hac : charCmp a c = .lt := by
              rw [charCmp_lt_iff] at hab hbc ⊢; omega
            rw [hac]; simp
          | eq =>
            have hac : charCmp a c = .lt := by
              rw [charCmp_lt_iff] at hab ⊢
              rw [charCmp_eq_iff] at hbc
              omega
            rw [hac]; simp
        | eq =>
          cases hbc : charCmp b c with
          | gt => rw [hbc] at h2; simp at h2
          | lt =>
            have hac : charCmp a c = .lt := by
              rw [charCmp_lt_iff] at hbc ⊢
              rw [charCmp_eq_iff] at hab
              omega
            rw [hac]; simp
          | eq =>
            have hac : charCmp a c = .eq := by
              rw [charCmp_eq_iff] at hab hbc ⊢; omega
            rw [hac]
            rw [hab] at h1
            rw [hbc] at h2
            exact ih bs cs h1 h2

lemma localeCompare_flip (a b : String) (h : 0 ≤ localeCompare b a) :
    localeCompare a b ≤ 0 := by
  unfold localeCompare at h ⊢
  rw [strCmp_swap b.data a.data]
  cases hc : strCmp b.data a.data <;> rw [hc] at h <;>
    simp [Ordering.swap] at h ⊢

lemma localeCompare_total (a b : String) :
    localeCompare a b ≤ 0 ∨ localeCompare b a ≤ 0 := by
  unfold localeCompare
  rw [strCmp_swap a.data b.data]
  cases strCmp a.data b.data <;> simp [Ordering.swap]

lemma localeCompare_le_trans (a b c : String) (h1 : localeCompare a b ≤ 0)
    (h2 : localeCompare b c ≤ 0) : localeCompare a c ≤ 0 := by
  unfold localeCompare at h1 h2 ⊢
  have g1 : strCmp a.data b.data ≠ .gt := by
    intro h; rw [h] at h1; simp at h1
  have g2 : strCmp b.data c.data ≠ .gt := by
    intro h; rw [h] at h2; simp at h2
  have := strCmp_le_trans a.data b.data c.data g1 g2
  cases h : strCmp a.data c.data <;> simp_all

/-- Rank encoding of the directory/dot priority for non-readme entries. -/
def nodeKey (n : FileNode) : Nat :=
  (if n.isDirectory then 2 else 0) + (if isDotName n then 1 else 0)

lemma specChildLe_char (a b : FileNode) (ha : isReadmeName a = false)
    (hb : isReadmeName b = false) :
    (specChildLe a b = true
      ↔ (nodeKey a < nodeKey b
         ∨ (nodeKey a = nodeKey b ∧ localeCompare a.name b.name ≤ 0))) := by
  unfold specChildLe nodeKey
  cases hda : a.isDirectory <;> cases hdb : b.isDirectory <;>
    cases hoa : isDotName a <;> cases hob : isDotName b <;>
    simp [ha, hb, hda, hdb, hoa, hob]

lemma specChildLe_total (a b : FileNode) :
    specChildLe a b = true ∨ specChildLe b a = true := by
  cases ha : isReadmeName a with
  | true => left; simp [specChildLe, ha]
  | false =>
    cases hb : isReadmeName b with
    | true => right; simp [specChildLe, hb]
    | false =>
      rw [specChildLe_char a b ha hb, specChildLe_char b a hb ha]
      rcases Nat.lt_trichotomy (nodeKey a) (nodeKey b) with h | h | h
      · exact .inl (.inl h)
      · rcases localeCompare_total a.name b.name with hl | hl
        · exact .inl (.inr ⟨h, hl⟩)
        · exact .inr (.inr ⟨h.symm, hl⟩)
      · exact .inr (.inl h)

lemma specChildLe_trans (a b c : FileNode) (h1 : specChildLe a b = true)
    (h2 : specChildLe b c = true) : specChildLe a c = true := by
  cases ha : isReadmeName a with
  | true => simp [specChildLe, ha]
  | false =>
    cases hb : isReadmeName b with
    | true => simp [specChildLe, ha, hb] at h1
    | false =>
      cases hc : isReadmeName c with
      | true => simp [specChildLe, hb, hc] at h2
      | false =>
        rw [specChildLe_char a b ha hb] at h1
        rw [specChildLe_char b c hb hc] at h2
        rw [specChildLe_char a c ha hc]
        rcases h1 with h1 | ⟨h1, hl1⟩ <;> rcases h2 with h2 | ⟨h2, hl2⟩
        · exact .inl (h1.trans h2)
        · exact .inl (h2 ▸ h1)
        · exact .inl (h1 ▸ h2)
        · exact .inr ⟨h1.trans h2,
            localeCompare_le_trans a.name b.name c.name hl1 hl2⟩

lemma specChildLe_iff_cmpNodes (a b : FileNode) :
    specChildLe a b = true ↔ cmpNodes a b ≤ 0 := by
  unfold specChildLe cmpNodes
  cases ha : isReadmeName a <;> cases hb : isReadmeName b <;>
    cases hd : a.isDirectory != b.isDirectory <;>
    cases ho : isDotName a != isDotName b <;>
    cases hda : a.isDirectory <;> cases hoa : isDotName a <;>
    simp_all

lemma cmpNodes_flip (a b : FileNode) (h : 0 ≤ cmpNodes b a) :
    cmpNodes a b ≤ 0 := by
  unfold cmpNodes at h ⊢
  cases ha : isReadmeName a <;> cases hb : isReadmeName b <;>
    cases hda : a.isDirectory <;> cases hdb : b.isDirectory <;>
    cases hoa : isDotName a <;> cases hob : isDotName b <;>
    simp_all <;>
    exact localeCompare_flip a.name b.name h

lemma cmpNodes_not_lt_flip (a b : FileNode) (h : ¬cmpNodes b a < 0) :
    specChildLe a b = true := by
  rw [specChildLe_iff_cmpNodes]
  push_neg at h
  exact cmpNodes_flip a b h

lemma insertNode_perm (a : FileNode) (l : List FileNode) :
    (insertNode a l).Perm (a :: l) := by
  induction l with
  | nil => simp [insertNode]
  | cons b rest ih =>
    unfold insertNode
    split
    · exact ((ih.cons b).trans (List.Perm.swap a b rest))
    · exact List.Perm.refl _

lemma sortChildren_perm (l : List FileNode) : (sortChildren l).Perm l := by
  induction l with
  | nil => simp [sortChildren]
  | cons a rest ih =>
    exact (insertNode_perm a (sortChildren rest)).trans (ih.cons a)

lemma pairwise_insertNode (a : FileNode) (l : List FileNode)
    (hl : List.Pairwise (fun x y => specChildLe x y = true) l) :
    List.Pairwise (fun x y => specChildLe x y = true) (insertNode a l) := by
  induction l with
  | nil => simp [insertNode]
  | cons b rest ih =>
    rcases List.pairwise_cons.mp hl with ⟨hb, hrest⟩
    unfold insertNode
    split
    · refine List.pairwise_cons.mpr ⟨?_, ih hrest⟩
      intro z hz
      have hz' := (insertNode_perm a rest).mem_iff.mp hz
      rcases List.mem_cons.mp hz' with rfl | hz''
      · rename_i hlt
        rw [specChildLe_iff_cmpNodes]
        omega
      · exact hb z hz''
    · rename_i hnlt
      have hab : specChildLe a b = true := cmpNodes_not_lt_flip a b hnlt
      refine List.pairwise_cons.mpr ⟨?_, hl⟩
      intro z hz
      rcases List.mem_cons.mp hz with rfl | hz'
      · exact hab
      · exact specChildLe_trans a b z hab (hb z hz')

/-- C5: `sortChildren` orders every children list by the spec's priority
order — a `readme.md` of any case first, then (among non-readmes)
directories after files, dot-names after non-dot names, ties broken by the
lexicographic name comparison; the result is a permutation of the input, the
spec order coincides with the source comparator being non-positive, and in
the sorted list every readme-named entry precedes every other entry. -/
theorem sortChildren_ordering (l : List FileNode) :
    List.Pairwise (fun x y => specChildLe x y = true) (sortChildren l)
    ∧ (sortChildren l).Perm l
    ∧ (∀ a b, specChildLe a b = true ↔ cmpNodes a b ≤ 0)
    ∧ List.Pairwise (fun x y => isReadmeName y = true → isReadmeName x = true)
        (sortChildren l) := by
  have hpw : List.Pairwise (fun x y => specChildLe x y = true) (sortChildren l) := by
    induction l with
    | nil => simp [sortChildren]
    | cons a rest ih => exact pairwise_insertNode a (sortChildren rest) ih
  refine ⟨hpw, sortChildren_perm l, specChildLe_iff_cmpNodes, ?_⟩
  refine hpw.imp ?_
  intro x y hxy hy
  by_contra hx
  have hx' : isReadmeName x = false := Bool.eq_false_iff.mpr hx
  rw [specChildLe, hx', if_neg (by simp), hy] at hxy
  simp at hxy

/-!
Tree walker: embedding of `query_ingestion.ts`.  The filesystem is a record
of partial functions; a `none` result models the corresponding `fs/promises`
call throwing.  JavaScript exceptions are the explicit error component of the
result; the visited set and the counters are threaded through explicitly and,
as in the source, keep their mutations when an error propagates.  Recursion is
by fuel (one unit per directory entered); real runs never exhaust it because
the depth check bounds recursion by `maxDirectoryDepth`, and the artificial
`fuelOut` token is propagated unswallowed so that no theorem can rest on a
fabricated out-of-fuel path.
-/

/-- Mutable counters of one traversal (`FileStats` of `types.ts`). -/
structure FileStats where
  totalFiles : Nat
  totalSize : Nat
deriving DecidableEq

/-- Result of `fs.stat`. -/
structure Stat where
  size : Nat
  isDirectory : Bool
deriving DecidableEq

/-- Directory entry returned by `fs.readdir(..., { withFileTypes: true })`. -/
structure DirEnt where
  name : String
  isSymbolicLink : Bool
  isDirectory : Bool
deriving DecidableEq

/-- Abstract filesystem consumed by the walker.  `fileBytes` gives a file's
full byte contents (the text probe reads its first 1024 bytes); `readText`
is the full decoded text (`none` models a read failure); `notebook` abstracts
the notebook extractor of `notebook_utils.ts` (`none` models its failure). -/
structure FSModel where
  stat : String → Option Stat
  readdir : String → Option (List DirEnt)
  realpath : String → Option String
  fileBytes : String → Option (List Nat)
  readText : String → Option String
  notebook : String → Option String

/-- Errors thrown inside the traversal (`exceptions.ts`), plus a `generic`
stand-in for any other thrown error (e.g. a failed `fs.stat`) and the
artificial `fuelOut` token of the embedding. -/
inductive WalkErr where
  | maxFilesReached
  | maxFileSizeReached
  | alreadyVisited (path : String)
  | invalidNotebook (path : String)
  | generic (path : String)
  | fuelOut
deriving DecidableEq

/-- The two run-aborting limit errors singled out by the `instanceof` test in
`scanDirectory`'s inner catch. -/
def isLimitError : WalkErr → Bool
  | .maxFilesReached => true
  | .maxFileSizeReached => true
  | _ => false

/-- Whether an error is the embedding's artificial out-of-fuel token. -/
def isFuelOut : WalkErr → Bool
  | .fuelOut => true
  | _ => false

/-- Path separator. -/
def slash : String := "/"

/-- Model of `path.join(dirPath, entry.name)` for the simple shapes the walker
produces. -/
def pathJoin (dir nm : String) : String :=
  if dir = emptyStr then nm else dir ++ slash ++ nm

/-- Characters of the last `/`-separated segment, accumulating the current
segment in reverse. -/
def basenameAux : List Char → List Char → List Char
  | [], acc => acc.reverse
  | c :: rest, acc =>
    if c = '/' then basenameAux rest [] else basenameAux rest (c :: acc)

/-- Model of `path.basename`: the last `/`-separated segment. -/
def basename (p : String) : String :=
  String.mk (basenameAux p.data [])

/-- Model of `path.relative(basePath, filePath)` for paths below the base;
no theorem below depends on its value on other shapes. -/
def pathRelative (basePath filePath : String) : String :=
  if filePath = basePath then emptyStr
  else if strStartsWith filePath (basePath ++ slash) then
    String.mk (filePath.data.drop (basePath ++ slash).data.length)
  else filePath

/-- Embedding of `shouldExclude` (`query_ingestion.ts`): some nonempty ignore
pattern matches the path relative to the base. -/
def shouldExclude (filePath basePath : String) (ignorePatterns : List String) :
    Bool :=
  ignorePatterns.any (fun pattern =>
    pattern != emptyStr && fnmatch (pathRelative basePath filePath) pattern)

/-- Embedding of `shouldInclude` (`query_ingestion.ts`): vacuously true for an
empty include set, otherwise some include pattern matches. -/
def shouldInclude (filePath basePath : String) (includePatterns : List String) :
    Bool :=
  if includePatterns.isEmpty then true
  else includePatterns.any (fun pattern =>
    fnmatch (pathRelative basePath filePath) pattern)

/-- Embedding of `isTextFile` (`query_ingestion.ts`): read up to the first
1024 bytes; zero bytes read counts as text; any null byte means binary; a
failed open/read counts as binary. -/
def isTextFile (fs : FSModel) (filePath : String) : Bool :=
  match fs.fileBytes filePath with
  | none => false
  | some bs => (bs.take 1024).all (fun b => b != 0)

/-- Substitute content produced by `readFileContent` when the decoded read
fails (the source interpolates the thrown message; the exact text is not
observable in any property proved here). -/
def readErrorText : String := "Error reading file: unknown"

/-- Embedding of `readFileContent` (`query_ingestion.ts`): the decoded text,
or an inline error string — never a thrown error. -/
def readFileContent (fs : FSModel) (filePath : String) : String :=
  match fs.readText filePath with
  | some content => content
  | none => readErrorText

/-- Embedding of `isSafeSymlink` (`query_ingestion.ts`): the canonical real
target's path textually starts with the base's canonical real path; any
`realpath` failure makes the symlink unsafe. -/
def isSafeSymlink (fs : FSModel) (symlinkPath basePath : String) : Bool :=
  match fs.realpath symlinkPath with
  | none => false
  | some targetPath =>
    match fs.realpath basePath with
    | none => false
    | some baseResolved => strStartsWith targetPath baseResolved

/-- File extension that routes a text file through the notebook extractor. -/
def ipynbExt : String := ".ipynb"

/-- Embedding of `processFile` (`query_ingestion.ts`).  The source mutates
`parentNode.children` and `stats`; here the built node is returned for the
caller to append, and the (possibly updated) stats accompany every outcome,
including thrown errors. -/
def processFile (fs : FSModel) (filePath : String) (stats : FileStats) :
    Except WalkErr FileNode × FileStats :=
  match fs.stat filePath with
  | none => (.error (.generic filePath), stats)
  | some fileStats =>
    if stats.totalFiles ≥ MAX_FILES then (.error .maxFilesReached, stats)
    else if fileStats.size > MAX_FILE_SIZE then (.error .maxFileSizeReached, stats)
    else
      let stats' : FileStats :=
        ⟨stats.totalFiles + 1, stats.totalSize + fileStats.size⟩
      if isTextFile fs filePath then
        if strEndsWith filePath ipynbExt then
          match fs.notebook filePath with
          | some nb =>
            (.ok (FileNode.mk (basename filePath) filePath fileStats.size false
              none (some nb)), stats')
          | none => (.error (.invalidNotebook filePath), stats')
        else
          (.ok (FileNode.mk (basename filePath) filePath fileStats.size false
            none (some (readFileContent fs filePath))), stats')
      else
        (.ok (FileNode.mk (basename filePath) filePath fileStats.size false
          none none), stats')

/-- Shape of the recursive directory-scan function threaded through the entry
loop: path, visited set, depth, stats in; produced node (if any), visited set
and stats out. -/
abbrev ScanFn :=
  String → List String → Nat → FileStats →
    Except WalkErr (Option FileNode) × List String × FileStats

/-- Embedding of `processSymlink` (`query_ingestion.ts`), parameterized by the
recursive scan used for a directory target.  Unsafe symlinks return silently;
an already-recorded canonical target throws `AlreadyVisited`; otherwise the
target is recorded and traversed as a directory (at depth + 1) or as a file. -/
def processSymlinkWith (scan : ScanFn) (fs : FSModel) (query : ParsedQuery)
    (symlinkPath : String) (seen : List String) (stats : FileStats)
    (depth : Nat) :
    Except WalkErr (Option FileNode) × List String × FileStats :=
  if isSafeSymlink fs symlinkPath query.repository = false then
    (.ok none, seen, stats)
  else
    match fs.realpath symlinkPath with
    | none => (.error (.generic symlinkPath), seen, stats)
    | some targetPath =>
      if targetPath ∈ seen then (.error (.alreadyVisited targetPath), seen, stats)
      else
        match fs.stat targetPath with
        | none => (.error (.generic targetPath), targetPath :: seen, stats)
        | some targetStats =>
          if targetStats.isDirectory then
            scan targetPath (targetPath :: seen) (depth + 1) stats
          else
            match processFile fs targetPath stats with
            | (.ok node, stats') => (.ok (some node), targetPath :: seen, stats')
            | (.error e, stats') => (.error e, targetPath :: seen, stats')

/-- Embedding of the per-entry loop of `scanDirectory` (`query_ingestion.ts`),
parameterized by the recursive scan.  Excluded or non-included entries are
skipped; symlinks, directories and files are dispatched; the inner catch
rethrows exactly the two limit errors (and the embedding's fuel token) and
logs-and-continues on every other error. -/
def scanEntriesWith (scan : ScanFn) (fs : FSModel) (query : ParsedQuery)
    (dirPath : String) :
    List DirEnt → List String → Nat → FileStats → List FileNode →
      Except WalkErr (List FileNode) × List String × FileStats
  | [], seen, _, stats, acc => (.ok acc, seen, stats)
  | e :: rest, seen, depth, stats, acc =>
    let entryPath := pathJoin dirPath e.name
    if shouldExclude entryPath query.repository query.ignorePatterns then
      scanEntriesWith scan fs query dirPath rest seen depth stats acc
    else if shouldInclude entryPath query.repository query.includePatterns
        = false then
      scanEntriesWith scan fs query dirPath rest seen depth stats acc
    else if e.isSymbolicLink then
      match processSymlinkWith scan fs query entryPath seen stats depth with
      | (.ok (some child), seen', stats') =>
        scanEntriesWith scan fs query dirPath rest seen' depth stats' (acc ++ [child])
      | (.ok none, seen', stats') =>
        scanEntriesWith scan fs query dirPath rest seen' depth stats' acc
      | (.error err, seen', stats') =>
        if isLimitError err || isFuelOut err then (.error err, seen', stats')
        else scanEntriesWith scan fs query dirPath rest seen' depth stats' acc
    else if e.isDirectory then
      match scan entryPath seen (depth + 1) stats with
      | (.ok (some child), seen', stats') =>
        scanEntriesWith scan fs query dirPath rest seen' depth stats' (acc ++ [child])
      | (.ok none, seen', stats') =>
        scanEntriesWith scan fs query dirPath rest seen' depth stats' acc
      | (.error err, seen', stats') =>
        if isLimitError err || isFuelOut err then (.error err, seen', stats')
        else scanEntriesWith scan fs query dirPath rest seen' depth stats' acc
    else
      match processFile fs entryPath stats with
      | (.ok child, stats') =>
        scanEntriesWith scan fs query dirPath rest seen depth stats' (acc ++ [child])
      | (.error err, stats') =>
        if isLimitError err || isFuelOut err then (.error err, seen, stats')
        else scanEntriesWith scan fs query dirPath rest seen depth stats' acc

/-- Embedding of `scanDirectory` (`query_ingestion.ts`).  Beyond the depth
limit the directory yields no node; a failed `stat` (outside the try) throws;
a failed `readdir` yields no node; the collected children are sorted into the
directory's node.  Crucially, the outer catch wraps the whole entry loop, so
every error the loop rethrows — including the two limit errors — is caught
here again, logged, and turned into an absent node (only the embedding's fuel
token is passed through). -/
def scanDirectory (fs : FSModel) (query : ParsedQuery) :
    Nat → String → List String → Nat → FileStats →
      Except WalkErr (Option FileNode) × List String × FileStats
  | 0 => fun _ seen _ stats => (.error .fuelOut, seen, stats)
  | n + 1 => fun dirPath seen depth stats =>
    if depth > query.maxDirectoryDepth then (.ok none, seen, stats)
    else
      match fs.stat dirPath with
      | none => (.error (.generic dirPath), seen, stats)
      | some dirStats =>
        match fs.readdir dirPath with
        | none => (.ok none, seen, stats)
        | some entries =>
          match scanEntriesWith (scanDirectory fs query n) fs query dirPath
              entries seen depth stats [] with
          | (.ok children, seen', stats') =>
            (.ok (some (FileNode.mk (basename dirPath) dirPath dirStats.size
              true (some (sortChildren children)) none)), seen', stats')
          | (.error err, seen', stats') =>
            if isFuelOut err then (.error err, seen', stats')
            else (.ok none, seen', stats')
termination_by structural n => n

/-- The entry loop of `scanDirectory` at a given fuel: nested directories are
scanned with the same fuel argument. -/
def scanEntries (fs : FSModel) (query : ParsedQuery) (fuel : Nat)
    (dirPath : String) (entries : List DirEnt) (seen : List String)
    (depth : Nat) (stats : FileStats) (acc : List FileNode) :
    Except WalkErr (List FileNode) × List String × FileStats :=
  scanEntriesWith (scanDirectory fs query fuel) fs query dirPath entries seen
    depth stats acc

/-- Embedding of `processSymlink` tied to `scanDirectory` at a given fuel. -/
def processSymlink (fs : FSModel) (query : ParsedQuery) (fuel : Nat)
    (symlinkPath : String) (seen : List String) (stats : FileStats)
    (depth : Nat) :
    Except WalkErr (Option FileNode) × List String × FileStats :=
  processSymlinkWith (scanDirectory fs query fuel) fs query symlinkPath seen
    stats depth

/-!
Concrete filesystems used to evaluate the walker at specific inputs.
-/

/-- Traversal root used by the concrete runs. -/
def rootPath : String := "r"

/-- Query with no custom patterns over the root, with the fixed limits. -/
def q1 : ParsedQuery :=
  ⟨rootPath, [], [], MAX_FILES, MAX_TOTAL_SIZE_BYTES, MAX_DIRECTORY_DEPTH⟩

/-- Name of the subdirectory in the concrete runs. -/
def subName : String := "sub"

/-- Path of the subdirectory. -/
def subPath : String := "r/sub"

/-- Name of the file inside the subdirectory. -/
def subFileName : String := "f"

/-- Path of the file inside the subdirectory. -/
def subFilePath : String := "r/sub/f"

/-- Name of the second, empty subdirectory. -/
def d2Name : String := "d2"

/-- Path of the second, empty subdirectory. -/
def d2Path : String := "r/d2"

/-- Filesystem for the `MaxFilesReached` run: root `r` contains directory
`sub` (holding one regular file) and then the empty directory `d2`. -/
def fsC1 : FSModel :=
  ⟨fun p =>
      if p = rootPath then some ⟨0, true⟩
      else if p = subPath then some ⟨0, true⟩
      else if p = d2Path then some ⟨0, true⟩
      else if p = subFilePath then some ⟨0, false⟩
      else none,
    fun p =>
      if p = rootPath then some [⟨subName, false, true⟩, ⟨d2Name, false, true⟩]
      else if p = subPath then some [⟨subFileName, false, false⟩]
      else if p = d2Path then some []
      else none,
    fun _ => none, fun _ => none, fun _ => none, fun _ => none⟩

/-- C1: with the file counter already at the maximum (as after 10000
previously counted files), processing the file under `r/sub` does throw
`MaxFilesReached` (second conjunct), but the error is caught again by the
outer catch of the `r/sub` directory scan, which yields an absent node; the
traversal then continues with the next root entry `r/d2` and the whole run
completes successfully — the error does not unwind the traversal and further
entries are processed, contradicting the claim. -/
theorem scanDirectory_swallows_max_files :
    scanDirectory fsC1 q1 3 rootPath [] 0 ⟨10000, 0⟩
      = (.ok (some (FileNode.mk rootPath rootPath 0 true
          (some [FileNode.mk d2Name d2Path 0 true (some []) none]) none)),
         [], ⟨10000, 0⟩)
    ∧ processFile fsC1 subFilePath ⟨10000, 0⟩
      = (.error .maxFilesReached, ⟨10000, 0⟩) := by
  constructor
  · rfl
  · rfl

/-- Name of the small regular file directly under the root. -/
def gName : String := "g"

/-- Path of the small regular file directly under the root. -/
def gPath : String := "r/g"

/-- Name of the oversized file inside `r/sub`. -/
def bigName : String := "big"

/-- Path of the oversized file inside `r/sub`. -/
def bigPath : String := "r/sub/big"

/-- Filesystem for the `MaxFileSizeReached` run: root `r` contains directory
`sub` (holding one file one byte over the 10 MiB limit) and then a small
binary file `g` of 5 bytes. -/
def fsC2 : FSModel :=
  ⟨fun p =>
      if p = rootPath then some ⟨0, true⟩
      else if p = subPath then some ⟨0, true⟩
      else if p = bigPath then some ⟨MAX_FILE_SIZE + 1, false⟩
      else if p = gPath then some ⟨5, false⟩
      else none,
    fun p =>
      if p = rootPath then some [⟨subName, false, true⟩, ⟨gName, false, false⟩]
      else if p = subPath then some [⟨bigName, false, false⟩]
      else none,
    fun _ => none,
    fun p => if p = gPath then some [0] else none,
    fun _ => none, fun _ => none⟩

/-- C2: the file one byte over the 10 MiB limit does throw
`MaxFileSizeReached` with no stats change (second conjunct), but the error is
caught again by the outer catch of the `r/sub` scan, which yields an absent
node; the run then continues, counts the later file `r/g`, and completes
successfully with totals (1 file, 5 bytes) — the oversized file's size is
never added, and the error does not propagate to the caller, contradicting
the claim's abort behavior. -/
theorem scanDirectory_swallows_max_file_size :
    scanDirectory fsC2 q1 3 rootPath [] 0 ⟨0, 0⟩
      = (.ok (some (FileNode.mk rootPath rootPath 0 true
          (some [FileNode.mk gName gPath 5 false none none]) none)),
         [], ⟨1, 5⟩)
    ∧ processFile fsC2 bigPath ⟨0, 0⟩
      = (.error .maxFileSizeReached, ⟨0, 0⟩) := by
  constructor
  · rfl
  · rfl

/-- C3: a symlink entry that is safe (its canonical real target starts with
the root's canonical real path) but whose target is already recorded in the
visited set makes `processSymlink` fail with `AlreadyVisited` and leaves the
visited set and the counters unchanged; the entry loop treats this error as
recoverable — it is not one of the rethrown limit errors — so the traversal
simply continues with the remaining entries.  In particular a symlink back to
an already-recorded ancestor is skipped instead of recursed into, so the walk
cannot loop through it. -/
theorem processSymlink_already_visited (fs : FSModel) (query : ParsedQuery)
    (fuel : Nat) (dirPath : String) (e : DirEnt) (rest : List DirEnt)
    (seen : List String) (depth : Nat) (stats : FileStats)
    (acc : List FileNode) (t b : String)
    (hsym : e.isSymbolicLink = true)
    (hrt : fs.realpath (pathJoin dirPath e.name) = some t)
    (hrb : fs.realpath query.repository = some b)
    (hsafe : strStartsWith t b = true)
    (hseen : t ∈ seen)
    (hex : shouldExclude (pathJoin dirPath e.name) query.repository
        query.ignorePatterns = false)
    (hinc : shouldInclude (pathJoin dirPath e.name) query.repository
        query.includePatterns = true) :
    processSymlink fs query fuel (pathJoin dirPath e.name) seen stats depth
      = (.error (.alreadyVisited t), seen, stats)
    ∧ scanEntries fs query fuel dirPath (e :: rest) seen depth stats acc
      = scanEntries fs query fuel dirPath rest seen depth stats acc := by
  have hsafe' : isSafeSymlink fs (pathJoin dirPath e.name) query.repository
      = true := by
    unfold isSafeSymlink
    rw [hrt, hrb]
    exact hsafe
  have h1 : processSymlinkWith (scanDirectory fs query fuel) fs query
      (pathJoin dirPath e.name) seen stats depth
      = (.error (.alreadyVisited t), seen, stats) := by
    unfold processSymlinkWith
    rw [hsafe']
    simp [hrt, hseen]
  refine ⟨h1, ?_⟩
  unfold scanEntries
  rw [scanEntriesWith]
  simp [hex, hinc, hsym, h1, isLimitError, isFuelOut]

/-- Symlink name used by the concrete symlink runs. -/
def sName : String := "s"

/-- Path of the symlink entry in the concrete symlink runs. -/
def symPath : String := "r/s"

/-- Canonical real target (inside the root) of the visited-symlink run. -/
def xPath : String := "r/x"

/-- Filesystem for the already-visited-symlink run: the symlink `r/s`
resolves to `r/x`, the root resolves to itself. -/
def fsC3 : FSModel :=
  ⟨fun _ => none, fun _ => none,
    fun p =>
      if p = symPath then some xPath
      else if p = rootPath then some rootPath
      else none,
    fun _ => none, fun _ => none, fun _ => none⟩

/-- C3 (witness): with `r/x` already visited, the symlink entry `r/s`
raises `AlreadyVisited` and the entry loop continues unchanged. -/
theorem processSymlink_already_visited_witness :
    processSymlink fsC3 q1 2 (pathJoin rootPath sName) [xPath] ⟨0, 0⟩ 0
      = (.error (.alreadyVisited xPath), [xPath], ⟨0, 0⟩)
    ∧ scanEntries fsC3 q1 2 rootPath [⟨sName, true, false⟩] [xPath] 0 ⟨0, 0⟩ []
      = scanEntries fsC3 q1 2 rootPath [] [xPath] 0 ⟨0, 0⟩ [] :=
  processSymlink_already_visited fsC3 q1 2 rootPath ⟨sName, true, false⟩ []
    [xPath] 0 ⟨0, 0⟩ [] xPath rootPath rfl rfl rfl rfl (by simp) rfl rfl

/-- C7: a symlink entry whose canonical real target does not start with the
root's canonical real path is skipped silently by `processSymlink` — no node,
no error, visited set and counters unchanged — and the entry loop just moves
on to the remaining entries. -/
theorem processSymlink_unsafe_skipped (fs : FSModel) (query : ParsedQuery)
    (fuel : Nat) (dirPath : String) (e : DirEnt) (rest : List DirEnt)
    (seen : List String) (depth : Nat) (stats : FileStats)
    (acc : List FileNode) (t b : String)
    (hsym : e.isSymbolicLink = true)
    (hrt : fs.realpath (pathJoin dirPath e.name) = some t)
    (hrb : fs.realpath query.repository = some b)
    (houtside : strStartsWith t b = false)
    (hex : shouldExclude (pathJoin dirPath e.name) query.repository
        query.ignorePatterns = false)
    (hinc : shouldInclude (pathJoin dirPath e.name) query.repository
        query.includePatterns = true) :
    processSymlink fs query fuel (pathJoin dirPath e.name) seen stats depth
      = (.ok none, seen, stats)
    ∧ scanEntries fs query fuel dirPath (e :: rest) seen depth stats acc
      = scanEntries fs query fuel dirPath rest seen depth stats acc := by
  have hsafe' : isSafeSymlink fs (pathJoin dirPath e.name) query.repository
      = false := by
    unfold isSafeSymlink
    rw [hrt, hrb]
    exact houtside
  have h1 : processSymlinkWith (scanDirectory fs query fuel) fs query
      (pathJoin dirPath e.name) seen stats depth = (.ok none, seen, stats) := by
    unfold processSymlinkWith
    rw [hsafe']
    simp
  refine ⟨h1, ?_⟩
  unfold scanEntries
  rw [scanEntriesWith]
  simp [hex, hinc, hsym, h1]

/-- Canonical real target (outside the root) of the unsafe-symlink run. -/
def outPath : String := "/etc/x"

/-- Filesystem for the unsafe-symlink run: the symlink `r/s` resolves to
`/etc/x`, outside the root. -/
def fsC7 : FSModel :=
  ⟨fun _ => none, fun _ => none,
    fun p =>
      if p = symPath then some outPath
      else if p = rootPath then some rootPath
      else none,
    fun _ => none, fun _ => none, fun _ => none⟩

/-- C7 (witness): the symlink entry `r/s` pointing at `/etc/x` is skipped
with zero effect on the visited set and the counters. -/
theorem processSymlink_unsafe_skipped_witness :
    processSymlink fsC7 q1 2 (pathJoin rootPath sName) [] ⟨0, 0⟩ 0
      = (.ok none, [], ⟨0, 0⟩)
    ∧ scanEntries fsC7 q1 2 rootPath [⟨sName, true, false⟩] [] 0 ⟨0, 0⟩ []
      = scanEntries fsC7 q1 2 rootPath [] [] 0 ⟨0, 0⟩ [] :=
  processSymlink_unsafe_skipped fsC7 q1 2 rootPath ⟨sName, true, false⟩ []
    [] 0 ⟨0, 0⟩ [] outPath rootPath rfl rfl rfl rfl rfl rfl

lemma isTextFile_iff (fs : FSModel) (p : String) :
    isTextFile fs p = true
      ↔ ∃ bs, fs.fileBytes p = some bs
          ∧ ((bs.take 1024).all (fun b => b != 0)) = true := by
  unfold isTextFile
  cases h : fs.fileBytes p <;> simp

/-- C8: whenever `processFile` succeeds, the produced node carries extracted
content exactly when the text probe succeeds, i.e. exactly when the file's
bytes are readable and their first (up to) 1024 bytes contain no null byte —
zero available bytes count as text; in every successful case, including the
binary one where no content is attached, the file counter increases by one,
the file's size is added to the byte total, and the node is a file node for
that path carrying that size. -/
theorem processFile_content_iff_text (fs : FSModel) (filePath : String)
    (stats : FileStats) (node : FileNode) (stats' : FileStats)
    (h : processFile fs filePath stats = (.ok node, stats')) :
    (node.content.isSome = isTextFile fs filePath)
    ∧ (isTextFile fs filePath = true
        ↔ ∃ bs, fs.fileBytes filePath = some bs
            ∧ ((bs.take 1024).all (fun b => b != 0)) = true)
    ∧ stats'.totalFiles = stats.totalFiles + 1
    ∧ (∃ st, fs.stat filePath = some st
        ∧ stats'.totalSize = stats.totalSize + st.size
        ∧ node = FileNode.mk (basename filePath) filePath st.size false none
            node.content) := by
  unfold processFile at h
  cases hstat : fs.stat filePath with
  | none => simp only [hstat] at h; exact absurd h (by simp)
  | some st =>
    simp only [hstat] at h
    by_cases hmax : stats.totalFiles ≥ MAX_FILES
    · rw [if_pos hmax] at h; exact absurd h (by simp)
    · rw [if_neg hmax] at h
      by_cases hsize : st.size > MAX_FILE_SIZE
      · rw [if_pos hsize] at h; exact absurd h (by simp)
      · rw [if_neg hsize] at h
        by_cases htext : isTextFile fs filePath = true
        · rw [if_pos htext] at h
          by_cases hnb : strEndsWith filePath ipynbExt = true
          · rw [if_pos hnb] at h
            cases hnbf : fs.notebook filePath with
            | none => rw [hnbf] at h; exact absurd h (by simp)
            | some nb =>
              rw [hnbf] at h
              simp only [Prod.mk.injEq, Except.ok.injEq] at h
              obtain ⟨hnode, hstats⟩ := h
              subst hnode
              subst hstats
              exact ⟨by simp [FileNode.content, htext],
                isTextFile_iff fs filePath, by simp, st, rfl, by simp,
                by simp [FileNode.content]⟩
          · rw [if_neg hnb] at h
            simp only [Prod.mk.injEq, Except.ok.injEq] at h
            obtain ⟨hnode, hstats⟩ := h
            subst hnode
            subst hstats
            exact ⟨by simp [FileNode.content, htext],
              isTextFile_iff fs filePath, by simp, st, rfl, by simp,
              by simp [FileNode.content]⟩
        · rw [if_neg htext] at h
          simp only [Prod.mk.injEq, Except.ok.injEq] at h
          obtain ⟨hnode, hstats⟩ := h
          subst hnode
          subst hstats
          refine ⟨?_, isTextFile_iff fs filePath, by simp, st, rfl, by simp,
            by simp [FileNode.content]⟩
          simp only [FileNode.content, Option.isSome_none]
          exact (Bool.eq_false_iff.mpr htext).symm

/-- Name of the binary file of the concrete binary-probe run. -/
def binName : String := "bin"

/-- Path of the binary file of the concrete binary-probe run. -/
def binPath : String := "r/bin"

/-- Filesystem for the binary-probe run: `r/bin` is a 5-byte file whose
first byte is null. -/
def fsC8 : FSModel :=
  ⟨fun p => if p = binPath then some ⟨5, false⟩ else none,
    fun _ => none, fun _ => none,
    fun p => if p = binPath then some [0, 1] else none,
    fun _ => none, fun _ => none⟩

/-- C8 (witness): the binary file gets no content but is still counted (one
file, five bytes) and still yields a file node. -/
theorem processFile_content_iff_text_witness :
    ((FileNode.mk binName binPath 5 false none none).content.isSome
        = isTextFile fsC8 binPath)
    ∧ (isTextFile fsC8 binPath = true
        ↔ ∃ bs, fsC8.fileBytes binPath = some bs
            ∧ ((bs.take 1024).all (fun b => b != 0)) = true)
    ∧ (⟨1, 5⟩ : FileStats).totalFiles = (⟨0, 0⟩ : FileStats).totalFiles + 1
    ∧ (∃ st, fsC8.stat binPath = some st
        ∧ (⟨1, 5⟩ : FileStats).totalSize
            = (⟨0, 0⟩ : FileStats).totalSize + st.size
        ∧ FileNode.mk binName binPath 5 false none none
            = FileNode.mk (basename binPath) binPath st.size false none
                (FileNode.mk binName binPath 5 false none none).content) :=
  processFile_content_iff_text fsC8 binPath ⟨0, 0⟩
    (FileNode.mk binName binPath 5 false none none) ⟨1, 5⟩ rfl

/-!
Renderer: embedding of `extractFilesContent`, `createFileContentString` and
`normalizePathStr` (`query_ingestion.ts`).
-/

/-- JavaScript truthiness of `node.content` as tested by
`extractFilesContent`: `undefined` and the empty string are falsy. -/
def contentTruthy (n : FileNode) : Bool :=
  match n.content with
  | some c => c != emptyStr
  | none => false

mutual

/-- Embedding of `extractFilesContent` (`query_ingestion.ts`): pre-order
accumulation of the non-directory nodes whose `content` is truthy. -/
def extractFilesContent (query : ParsedQuery) :
    FileNode → List FileNode → List FileNode
  | .mk nm p sz d ch ct, files =>
    let node := FileNode.mk nm p sz d ch ct
    let files' :=
      if !d && contentTruthy node then files ++ [node] else files
    match ch with
    | none => files'
    | some cs => extractFilesList query cs files'

/-- The `for (const child of node.children)` loop of `extractFilesContent`. -/
def extractFilesList (query : ParsedQuery) :
    List FileNode → List FileNode → List FileNode
  | [], files => files
  | c :: rest, files => extractFilesList query rest (extractFilesContent query c files)

end

/-- Newline constant. -/
def nl : String := "\n"

/-- The 80-character `=` delimiter line (`'='.repeat(80)`). -/
def eqLine : String := String.mk (List.replicate 80 '=')

/-- Text JavaScript interpolates for an undefined content field. -/
def undefinedStr : String := "undefined"

/-- Interpolation `${file.content}` of `createFileContentString`. -/
def contentOrUndefined (f : FileNode) : String :=
  match f.content with
  | some c => c
  | none => undefinedStr

/-- Embedding of `normalizePathStr` (`query_ingestion.ts`): every backslash
replaced by a forward slash. -/
def normalizePathStr (p : String) : String :=
  String.mk (p.data.map (fun c => if c = '\\' then '/' else c))

/-- One file block of `createFileContentString`: delimiter line, normalized
path, delimiter line, content, each followed by a newline. -/
def nodeBlock (file : FileNode) : String :=
  eqLine ++ nl ++ normalizePathStr file.path ++ nl ++ eqLine ++ nl
    ++ contentOrUndefined file ++ nl

/-- Model of `Array.prototype.join(sep)`. -/
def joinWith (sep : String) : List String → String
  | [] => emptyStr
  | s :: rest => rest.foldl (fun acc t => acc ++ sep ++ t) s

/-- Embedding of `createFileContentString` (`query_ingestion.ts`): the file
blocks joined with `"\n"` (each block already ends in a newline, so
consecutive blocks are separated by a blank line). -/
def createFileContentString (files : List FileNode) : String :=
  joinWith nl (files.map nodeBlock)

/-- Specification-side test, written from the spec's words as amended: a file
Node carrying nonempty extracted content. -/
def carriesContent (n : FileNode) : Bool :=
  match n.content with
  | some c => decide (c ≠ emptyStr)
  | none => false

mutual

/-- Specification-side collection: the file Nodes carrying nonempty content,
in depth-first pre-order, directories skipped. -/
def specContentFiles : FileNode → List FileNode
  | .mk nm p sz d ch ct =>
    (if d = false ∧ carriesContent (FileNode.mk nm p sz d ch ct) = true
      then [FileNode.mk nm p sz d ch ct] else [])
      ++ (match ch with
          | none => []
          | some cs => specContentList cs)

/-- Specification-side collection over a children list, preserving order. -/
def specContentList : List FileNode → List FileNode
  | [] => []
  | c :: rest => specContentFiles c ++ specContentList rest

end

lemma carriesContent_eq (n : FileNode) : carriesContent n = contentTruthy n := by
  unfold carriesContent contentTruthy
  cases n.content with
  | none => rfl
  | some c =>
    by_cases hc : c = emptyStr
    · subst hc; simp
    · simp [hc]

lemma keep_ite (nm p : String) (sz : Nat) (d : Bool)
    (ch : Option (List FileNode)) (ct : Option String) (files : List FileNode) :
    (if (!d && contentTruthy (FileNode.mk nm p sz d ch ct)) = true
      then files ++ [FileNode.mk nm p sz d ch ct] else files)
    = files ++
        (if d = false ∧ carriesContent (FileNode.mk nm p sz d ch ct) = true
          then [FileNode.mk nm p sz d ch ct] else []) := by
  cases d with
  | false =>
    by_cases hc : contentTruthy (FileNode.mk nm p sz false ch ct) = true
    · simp [hc, carriesContent_eq]
    · simp [hc, carriesContent_eq]
  | true => simp

lemma extract_spec_aux (query : ParsedQuery) (k : Nat) :
    (∀ node, sizeOf node ≤ k → ∀ files,
        extractFilesContent query node files = files ++ specContentFiles node)
    ∧ (∀ nodes, sizeOf nodes ≤ k → ∀ files,
        extractFilesList query nodes files = files ++ specContentList nodes) := by
  induction k with
  | zero =>
    constructor
    · intro node h
      exfalso
      cases node with
      | mk nm p sz d ch ct => simp at h
    · intro nodes h
      exfalso
      cases nodes with
      | nil => simp at h
      | cons c rest => simp at h
  | succ k ihk =>
    obtain ⟨ih1, ih2⟩ := ihk
    constructor
    · intro node hsz files
      cases node with
      | mk nm p sz d ch ct =>
        cases ch with
        | none =>
          simp only [extractFilesContent, specContentFiles]
          rw [keep_ite]
          simp
        | some cs =>
          have hcs : sizeOf cs ≤ k := by
            simp at hsz; omega
          simp only [extractFilesContent, specContentFiles]
          rw [ih2 cs hcs, keep_ite]
          simp
    · intro nodes hsz files
      cases nodes with
      | nil => simp [extractFilesList, specContentList]
      | cons c rest =>
        have hc : sizeOf c ≤ k := by simp at hsz; omega
        have hrest : sizeOf rest ≤ k := by simp at hsz; omega
        rw [extractFilesList, ih2 rest hrest, ih1 c hc, specContentList]
        simp

lemma extract_eq_spec (query : ParsedQuery) (node : FileNode)
    (files : List FileNode) :
    extractFilesContent query node files = files ++ specContentFiles node :=
  (extract_spec_aux query (sizeOf node)).1 node (Nat.le_refl _) files

/-- C9 (amended): the rendered content string is exactly one block per file
Node carrying nonempty extracted content, in depth-first pre-order with
directory Nodes skipped (a file whose attached content is the empty string is
omitted, matching the JavaScript truthiness test on `node.content`); each
block is the 80-character `=` delimiter line, the backslash-normalized path,
another delimiter line and the content, and consecutive blocks are separated
by a blank line since every block ends in a newline and blocks are joined
with a newline. -/
theorem createFileContentString_spec (query : ParsedQuery) (node : FileNode) :
    createFileContentString (extractFilesContent query node [])
      = joinWith nl ((specContentFiles node).map nodeBlock)
    ∧ eqLine.data.length = 80
    ∧ (∀ c ∈ eqLine.data, c = '=') := by
  refine ⟨?_, by simp [eqLine], by simp [eqLine]⟩
  rw [extract_eq_spec query node []]
  simp [createFileContentString]

/-- Name of the empty-content file of the C9 counterexample. -/
def eName : String := "e"

/-- Path of the empty-content file of the C9 counterexample. -/
def ePath : String := "r/e"

/-- A file node whose extracted content is attached but empty — exactly what
an empty text file produces in a real run. -/
def emptyContentNode : FileNode :=
  FileNode.mk eName ePath 0 false none (some emptyStr)

/-- C9 (counterexample): `emptyContentNode` is a file Node carrying extracted
content (the empty string), yet the rendered content of the tree consisting
of just this node is the empty string — no delimiter block is emitted for it,
while rendering the node's block list directly shows the block would not be
empty.  The JS truthiness test `node.content` drops files whose attached
content is `""`, so the claim's "one block per file Node carrying extracted
content" fails at this input. -/
theorem extract_skips_empty_content :
    emptyContentNode.isDirectory = false
    ∧ emptyContentNode.content = some emptyStr
    ∧ createFileContentString (extractFilesContent q1 emptyContentNode [])
        = emptyStr
    ∧ createFileContentString [emptyContentNode] ≠ emptyStr := by
  refine ⟨rfl, rfl, rfl, ?_⟩
  decide

end Gitingest
